import Mathlib

/-!
Verification development for the lens-spaces chunked live-stream transport:
a shallow embedding of the manifest data model and of the producer
(StreamRecorder) and consumer (StreamPlayer) state machines of
src/client/lib/lens/stream.ts, with theorems settling the spec claims.

Modelling conventions:
* JS numbers holding millisecond timestamps and chunk indices are `Int`
  (the consumer's `lastProcessedChunkIndex` starts at `-1`).
  The producer's `chunkCounter` only ever increments from `0`, so it is `Nat`.
* Media blobs / ArrayBuffers are opaque payloads, modelled as `Nat`.
* Asynchronous storage calls are modelled by outcome parameters: each
  attempted upload / manifest write / segment fetch is given its result
  (success with data, or failure) by the environment.
* The single-flight guards (`isUploading`, and the fact that the poll timer
  fires sequentially) make both queues effectively sequential, so runs are
  modelled as folds of a step function over an event list.
-/

/-- Opaque media payload (a Blob / ArrayBuffer in the source). -/
abbrev Payload := Nat

/-- Manifest lifecycle status: the `status` field, `"live" | "ended"`. -/
inductive StreamStatus where
  | live
  | ended
  deriving Repr, DecidableEq

/-- `StreamChunk` from stream.ts: `{ uri, timestamp, index }`. -/
structure StreamChunk where
  uri : String
  timestamp : Int
  index : Int
  deriving Repr, DecidableEq

/-- `StreamManifest` from stream.ts. -/
structure StreamManifest where
  version : String
  title : String
  creator : String
  startedAt : Int
  endedAt : Option Int
  chunkCount : Int
  chunks : List StreamChunk
  status : StreamStatus
  deriving Repr, DecidableEq

/-- `createStreamManifest(title, creator)`; `now` stands for `Date.now()`. -/
def createStreamManifest (title creator : String) (now : Int) : StreamManifest :=
  { version := "1.0"
    title := title
    creator := creator
    startedAt := now
    endedAt := none
    chunkCount := 0
    chunks := []
    status := StreamStatus.live }

/-- The manifest value built by `updateStreamManifest`: spread of the old
manifest with `chunkCount` incremented and the new chunk reference appended.
`now` stands for the `Date.now()` used for the chunk timestamp.  The
surrounding storage write (`updateJson`) either persists exactly this value or
throws; the throwing case is handled by the callers' outcome parameters. -/
def updateStreamManifest (manifest : StreamManifest) (chunkUri : String)
    (index : Int) (now : Int) : StreamManifest :=
  { manifest with
    chunkCount := manifest.chunkCount + 1
    chunks := manifest.chunks ++ [{ uri := chunkUri, timestamp := now, index := index }] }

/-- The manifest value built by `endStream`: spread of the old manifest with
`endedAt` set and `status` set to `"ended"`. -/
def endStream (manifest : StreamManifest) (now : Int) : StreamManifest :=
  { manifest with
    endedAt := some now
    status := StreamStatus.ended }

/-! ## Producer: StreamRecorder -/

/-- In-memory state of an initialized `StreamRecorder` (after
`initializeStream` has set `streamUri` and `manifest`): the fields the upload
sequencer reads and writes, plus a ghost counter `manifestWrites` recording
how many successful manifest writes (`updateJson` calls that returned) have
been performed. -/
structure RecorderState where
  chunkCounter : Nat
  uploadQueue : List Payload
  manifest : StreamManifest
  isRecording : Bool
  manifestWrites : Nat
  deriving Repr, DecidableEq

/-- Recorder state right after `initializeStream(title, creator)` and
`startRecording` succeed: fresh manifest, empty queue, counter at zero. -/
def initRecorder (title creator : String) (t0 : Int) : RecorderState :=
  { chunkCounter := 0
    uploadQueue := []
    manifest := createStreamManifest title creator t0
    isRecording := true
    manifestWrites := 0 }

/-- Environment-chosen result of one pass through the body of
`processUploadQueue`: `ok` tells whether both `uploadStreamChunk` and
`updateStreamManifest` succeeded; `uri` is the chunk URI returned by the
upload; `now` the timestamp used for the chunk reference. -/
structure UploadOutcome where
  ok : Bool
  uri : String
  now : Int
  deriving Repr, DecidableEq

/-- One iteration of `StreamRecorder.processUploadQueue`: shift the next blob
off the queue (no-op when empty), take `chunkIndex = chunkCounter++`, then
attempt upload and manifest update.  On failure the error is caught and
logged (`// Continue processing queue even on error`): the blob has already
been removed from the queue and the counter already incremented, and the
manifest is left unchanged. -/
def processUploadStep (st : RecorderState) (o : UploadOutcome) : RecorderState :=
  match st.uploadQueue with
  | [] => st
  | _ :: rest =>
    let idx : Int := (st.chunkCounter : Int)
    let st' := { st with uploadQueue := rest, chunkCounter := st.chunkCounter + 1 }
    if o.ok then
      { st' with
        manifest := updateStreamManifest st'.manifest o.uri idx o.now
        manifestWrites := st'.manifestWrites + 1 }
    else st'

/-- An observable event of a recording run: either `handleDataAvailable`
enqueues a fresh blob, or the sequencer processes one queued item with the
given outcome.  Events may interleave arbitrarily. -/
inductive RecEvent where
  | enqueue (b : Payload)
  | process (o : UploadOutcome)
  deriving Repr, DecidableEq

/-- Apply one recorder event. -/
def recStep (st : RecorderState) (e : RecEvent) : RecorderState :=
  match e with
  | RecEvent.enqueue b => { st with uploadQueue := st.uploadQueue ++ [b] }
  | RecEvent.process o => processUploadStep st o

/-- Run a recorder event trace. -/
def recRun (st : RecorderState) (es : List RecEvent) : RecorderState :=
  es.foldl recStep st

/-- Number of blobs enqueued during a trace. -/
def numEnqueues : List RecEvent → Nat
  | [] => 0
  | RecEvent.enqueue _ :: es => numEnqueues es + 1
  | RecEvent.process _ :: es => numEnqueues es

/-- `true` when the event is either an enqueue or a successful processing
pass (used to describe failure-free runs). -/
def eventOk : RecEvent → Bool
  | RecEvent.enqueue _ => true
  | RecEvent.process o => o.ok

/-- `stopRecording`: a no-op when not recording; otherwise it drains the
upload queue (`waitForUploads`, whose passes are given by `outcomes`), then
attempts the final `endStream` manifest write.  `endOk` tells whether that
write succeeded; only then are the manifest replaced and `isRecording`
cleared (the assignment follows the awaited write in the source; on failure
the error is rethrown with the state unchanged since the drain). -/
def stopRecording (st : RecorderState) (outcomes : List UploadOutcome)
    (now : Int) (endOk : Bool) : RecorderState :=
  if st.isRecording = false then st
  else
    let st1 := outcomes.foldl processUploadStep st
    if endOk then
      { st1 with
        manifest := endStream st1.manifest now
        isRecording := false
        manifestWrites := st1.manifestWrites + 1 }
    else st1

/-! ## Claims C7 and C10: manifest operations -/

/-- Claim C7: every manifest produced by the manifest operations satisfies
`chunkCount == length(chunks)`: `createStreamManifest` establishes it with
`chunkCount = 0` and empty `chunks`, and `updateStreamManifest` and
`endStream` preserve it for every input manifest satisfying it. -/
theorem claim7_chunkCount_invariant :
    (∀ title creator now, (createStreamManifest title creator now).chunkCount = 0 ∧
      (createStreamManifest title creator now).chunks = []) ∧
    (∀ m chunkUri index now, m.chunkCount = (m.chunks.length : Int) →
      (updateStreamManifest m chunkUri index now).chunkCount =
        (((updateStreamManifest m chunkUri index now).chunks.length : Nat) : Int)) ∧
    (∀ m now, m.chunkCount = (m.chunks.length : Int) →
      (endStream m now).chunkCount = (((endStream m now).chunks.length : Nat) : Int)) := by
  refine ⟨fun title creator now => ⟨rfl, rfl⟩, fun m chunkUri index now h => ?_, fun m now h => ?_⟩
  · simp [updateStreamManifest, h]
  · simpa [endStream] using h

/-- Witness for C7 at a concrete manifest. -/
theorem claim7_chunkCount_invariant_witness :
    (createStreamManifest "t" "c" 3).chunkCount = ((createStreamManifest "t" "c" 3).chunks.length : Int) ∧
    (updateStreamManifest (createStreamManifest "t" "c" 3) "u" 0 4).chunkCount =
      ((updateStreamManifest (createStreamManifest "t" "c" 3) "u" 0 4).chunks.length : Int) ∧
    (endStream (createStreamManifest "t" "c" 3) 5).chunkCount =
      ((endStream (createStreamManifest "t" "c" 3) 5).chunks.length : Int) :=
  ⟨by decide,
   claim7_chunkCount_invariant.2.1 (createStreamManifest "t" "c" 3) "u" 0 4 (by decide),
   claim7_chunkCount_invariant.2.2 (createStreamManifest "t" "c" 3) 5 (by decide)⟩

/-- Claim C10: `endStream` differs from its input only in `status` (set to
ended) and `endedAt` (set to the current time); `updateStreamManifest`
differs from its input only in `chunkCount` (incremented by one) and `chunks`
(one entry appended). -/
theorem claim10_frame_conditions :
    (∀ m now, (endStream m now).version = m.version ∧
      (endStream m now).title = m.title ∧
      (endStream m now).creator = m.creator ∧
      (endStream m now).startedAt = m.startedAt ∧
      (endStream m now).chunkCount = m.chunkCount ∧
      (endStream m now).chunks = m.chunks ∧
      (endStream m now).status = StreamStatus.ended ∧
      (endStream m now).endedAt = some now) ∧
    (∀ m chunkUri index now,
      (updateStreamManifest m chunkUri index now).version = m.version ∧
      (updateStreamManifest m chunkUri index now).title = m.title ∧
      (updateStreamManifest m chunkUri index now).creator = m.creator ∧
      (updateStreamManifest m chunkUri index now).startedAt = m.startedAt ∧
      (updateStreamManifest m chunkUri index now).endedAt = m.endedAt ∧
      (updateStreamManifest m chunkUri index now).status = m.status ∧
      (updateStreamManifest m chunkUri index now).chunkCount = m.chunkCount + 1 ∧
      (updateStreamManifest m chunkUri index now).chunks =
        m.chunks ++ [{ uri := chunkUri, timestamp := now, index := index }]) := by
  exact ⟨fun m now => ⟨rfl, rfl, rfl, rfl, rfl, rfl, rfl, rfl⟩,
         fun m chunkUri index now => ⟨rfl, rfl, rfl, rfl, rfl, rfl, rfl, rfl⟩⟩


/-! ## Producer invariants -/

theorem processUploadStep_eq_nil (st : RecorderState) (o : UploadOutcome)
    (hq : st.uploadQueue = []) : processUploadStep st o = st := by
  simp [processUploadStep, hq]

theorem processUploadStep_eq_ok (st : RecorderState) (o : UploadOutcome)
    (b : Payload) (rest : List Payload)
    (hq : st.uploadQueue = b :: rest) (ho : o.ok = true) :
    processUploadStep st o
      = { st with
          uploadQueue := rest
          chunkCounter := st.chunkCounter + 1
          manifest := updateStreamManifest st.manifest o.uri (st.chunkCounter : Int) o.now
          manifestWrites := st.manifestWrites + 1 } := by
  simp [processUploadStep, hq, ho]

theorem processUploadStep_eq_fail (st : RecorderState) (o : UploadOutcome)
    (b : Payload) (rest : List Payload)
    (hq : st.uploadQueue = b :: rest) (ho : o.ok = false) :
    processUploadStep st o
      = { st with uploadQueue := rest, chunkCounter := st.chunkCounter + 1 } := by
  simp [processUploadStep, hq, ho]

/-- Sequencer invariant for failure-free runs: the indices recorded in the
manifest are exactly `0, 1, ..., chunkCounter - 1` in order. -/
def recInv (st : RecorderState) : Prop :=
  st.manifest.chunks.map (fun ch => ch.index)
    = (List.range st.chunkCounter).map (fun i => (i : Int))

theorem recStep_inv (st : RecorderState) (e : RecEvent) (hok : eventOk e = true)
    (h : recInv st) : recInv (recStep st e) := by
  cases e with
  | enqueue b => simpa [recInv, recStep] using h
  | process o =>
    have hok' : o.ok = true := by simpa [eventOk] using hok
    cases hq : st.uploadQueue with
    | nil => simpa [recInv, recStep, processUploadStep_eq_nil st o hq] using h
    | cons b rest =>
      unfold recInv at h ⊢
      simp only [recStep]
      rw [processUploadStep_eq_ok st o b rest hq hok']
      simp [updateStreamManifest, List.range_succ, h]

theorem recRun_inv (es : List RecEvent) :
    ∀ st : RecorderState, (∀ e ∈ es, eventOk e = true) → recInv st →
      recInv (recRun st es) := by
  induction es with
  | nil => intro st _ h; simpa [recRun] using h
  | cons e es ih =>
    intro st hok h
    have h1 := recStep_inv st e (hok e (by simp)) h
    simpa [recRun] using ih (recStep st e) (fun e' he' => hok e' (by simp [he'])) h1

theorem processUploadStep_counter_queue (st : RecorderState) (o : UploadOutcome) :
    (processUploadStep st o).chunkCounter + (processUploadStep st o).uploadQueue.length
      = st.chunkCounter + st.uploadQueue.length := by
  cases hq : st.uploadQueue with
  | nil => rw [processUploadStep_eq_nil st o hq, hq]
  | cons b rest =>
    cases ho : o.ok with
    | false =>
      rw [processUploadStep_eq_fail st o b rest hq ho]
      simp [hq]
      omega
    | true =>
      rw [processUploadStep_eq_ok st o b rest hq ho]
      simp [hq]
      omega

theorem recRun_counter_queue (es : List RecEvent) :
    ∀ st : RecorderState,
      (recRun st es).chunkCounter + (recRun st es).uploadQueue.length
        = st.chunkCounter + st.uploadQueue.length + numEnqueues es := by
  induction es with
  | nil => intro st; simp [recRun, numEnqueues]
  | cons e es ih =>
    intro st
    have hstep :
        (recStep st e).chunkCounter + (recStep st e).uploadQueue.length + numEnqueues es
          = st.chunkCounter + st.uploadQueue.length + numEnqueues (e :: es) := by
      cases e with
      | enqueue b => simp [recStep, numEnqueues]; omega
      | process o =>
        have := processUploadStep_counter_queue st o
        simp only [recStep, numEnqueues]
        omega
    calc (recRun st (e :: es)).chunkCounter + (recRun st (e :: es)).uploadQueue.length
        = (recRun (recStep st e) es).chunkCounter
            + (recRun (recStep st e) es).uploadQueue.length := by simp [recRun]
      _ = (recStep st e).chunkCounter + (recStep st e).uploadQueue.length
            + numEnqueues es := ih (recStep st e)
      _ = st.chunkCounter + st.uploadQueue.length + numEnqueues (e :: es) := hstep

/-! ## Claim C1: sequencer produces contiguous indices 0..N-1 -/

/-- Claim C1: for every run in which N segment blobs are enqueued, in any
interleaving with processing passes, and the upload sequencer drains them
(every processing pass succeeds and the queue ends empty), the final
manifest's chunks array is sorted by index with no gaps: its indices are
exactly `0..N-1` in increasing order. -/
theorem claim1_sequencer_contiguous_indices (title creator : String) (t0 : Int)
    (es : List RecEvent)
    (hok : ∀ e ∈ es, eventOk e = true)
    (hdrained : (recRun (initRecorder title creator t0) es).uploadQueue = []) :
    (recRun (initRecorder title creator t0) es).manifest.chunks.map (fun ch => ch.index)
      = (List.range (numEnqueues es)).map (fun i => (i : Int)) := by
  have hinv : recInv (recRun (initRecorder title creator t0) es) :=
    recRun_inv es _ hok (by simp [recInv, initRecorder, createStreamManifest])
  have hc : (recRun (initRecorder title creator t0) es).chunkCounter = numEnqueues es := by
    have hsum := recRun_counter_queue es (initRecorder title creator t0)
    rw [hdrained] at hsum
    have h1 : (initRecorder title creator t0).chunkCounter = 0 := rfl
    have h2 : (initRecorder title creator t0).uploadQueue = [] := rfl
    rw [h1, h2] at hsum
    simpa using hsum
  unfold recInv at hinv
  rw [hinv, hc]

/-- A sample failure-free trace: three blobs arrive interleaved with
processing passes that all succeed. -/
def sampleTrace : List RecEvent :=
  [RecEvent.enqueue 10, RecEvent.enqueue 20,
   RecEvent.process { ok := true, uri := "a", now := 5 },
   RecEvent.enqueue 30,
   RecEvent.process { ok := true, uri := "b", now := 6 },
   RecEvent.process { ok := true, uri := "c", now := 7 }]

/-- Witness for C1 on `sampleTrace`. -/
theorem claim1_sequencer_contiguous_indices_witness :
    (∀ e ∈ sampleTrace, eventOk e = true) ∧
    (recRun (initRecorder "t" "c" 0) sampleTrace).uploadQueue = [] ∧
    (recRun (initRecorder "t" "c" 0) sampleTrace).manifest.chunks.map (fun ch => ch.index)
      = (List.range (numEnqueues sampleTrace)).map (fun i => (i : Int)) :=
  ⟨by decide, by decide,
   claim1_sequencer_contiguous_indices "t" "c" 0 sampleTrace (by decide) (by decide)⟩

/-! ## Claim C8: indices strictly increasing after every append -/

/-- Ordering invariant that holds on all reachable recorder states, with or
without upload failures: manifest chunk indices are strictly increasing and
all below the chunk counter. -/
def recOrdered (st : RecorderState) : Prop :=
  List.Chain' (fun a b => a.index < b.index) st.manifest.chunks ∧
  ∀ ch ∈ st.manifest.chunks, ch.index < (st.chunkCounter : Int)

theorem recStep_ordered (st : RecorderState) (e : RecEvent)
    (h : recOrdered st) : recOrdered (recStep st e) := by
  obtain ⟨hchain, hbound⟩ := h
  cases e with
  | enqueue b => exact ⟨hchain, hbound⟩
  | process o =>
    cases hq : st.uploadQueue with
    | nil =>
      simp only [recStep]
      rw [processUploadStep_eq_nil st o hq]
      exact ⟨hchain, hbound⟩
    | cons b rest =>
      cases ho : o.ok with
      | false =>
        simp only [recStep]
        rw [processUploadStep_eq_fail st o b rest hq ho]
        refine ⟨hchain, fun ch hch => ?_⟩
        have hb := hbound ch hch
        push_cast
        push_cast at hb
        omega
      | true =>
        simp only [recStep]
        rw [processUploadStep_eq_ok st o b rest hq ho]
        constructor
        · simp only [updateStreamManifest]
          rw [List.chain'_append]
          refine ⟨hchain, List.chain'_singleton _, fun x hx y hy => ?_⟩
          have hx' : x ∈ st.manifest.chunks := List.mem_of_mem_getLast? hx
          simp only [List.head?_cons, Option.mem_def, Option.some.injEq] at hy
          rw [← hy]
          exact hbound x hx'
        · intro ch hch
          simp only [updateStreamManifest, List.mem_append, List.mem_singleton] at hch
          rcases hch with hch | hch
          · have hb := hbound ch hch
            push_cast at hb ⊢
            omega
          · rw [hch]
            push_cast
            simp

theorem recRun_ordered (es : List RecEvent) :
    ∀ st : RecorderState, recOrdered st → recOrdered (recRun st es) := by
  induction es with
  | nil => intro st h; simpa [recRun] using h
  | cons e es ih =>
    intro st h
    simpa [recRun] using ih (recStep st e) (recStep_ordered st e h)

/-- Claim C8: on every manifest state reachable by the producer's append
steps — including runs where some uploads fail and are skipped — adjacent
chunk entries have strictly increasing `index`. -/
theorem claim8_indices_strictly_increasing (title creator : String) (t0 : Int)
    (es : List RecEvent) :
    List.Chain' (fun a b => a.index < b.index)
      (recRun (initRecorder title creator t0) es).manifest.chunks :=
  (recRun_ordered es (initRecorder title creator t0)
    ⟨by simp [initRecorder, createStreamManifest],
     by simp [initRecorder, createStreamManifest]⟩).1

/-! ## Claim C2: failed segments are dropped, not kept queued -/

/-- Counterexample to claim C2.  A recorder with a single queued segment
whose processing pass fails: after the pass the upload queue is empty (the
segment was removed before the upload was attempted and is not re-queued)
and the manifest still has no chunks (its reference was never appended) —
the sequencer did remove a segment from the queue without successfully
appending it. -/
theorem claim2_counterexample :
    (processUploadStep
        { chunkCounter := 0, uploadQueue := [7],
          manifest := createStreamManifest "t" "c" 0,
          isRecording := true, manifestWrites := 0 }
        { ok := false, uri := "u", now := 1 }).uploadQueue = [] ∧
    (processUploadStep
        { chunkCounter := 0, uploadQueue := [7],
          manifest := createStreamManifest "t" "c" 0,
          isRecording := true, manifestWrites := 0 }
        { ok := false, uri := "u", now := 1 }).manifest.chunks = [] := by
  decide

/-- Amended claim C2: when processing of a queued segment fails, the segment
has already been shifted off the queue and is not re-queued — it is silently
dropped; the chunk counter still advances (leaving a gap in indices) and the
manifest is unchanged, after which the sequencer simply continues with the
next item. -/
theorem claim2_amended_failed_segment_dropped (st : RecorderState)
    (o : UploadOutcome) (b : Payload) (rest : List Payload)
    (hq : st.uploadQueue = b :: rest) (hfail : o.ok = false) :
    processUploadStep st o
      = { st with uploadQueue := rest, chunkCounter := st.chunkCounter + 1 } := by
  simp [processUploadStep, hq, hfail]

/-- Witness for the amended C2 at a concrete recorder state. -/
theorem claim2_amended_failed_segment_dropped_witness :
    processUploadStep
        { chunkCounter := 2, uploadQueue := [8, 9],
          manifest := createStreamManifest "t" "c" 0,
          isRecording := true, manifestWrites := 0 }
        { ok := false, uri := "u", now := 1 }
      = { chunkCounter := 3, uploadQueue := [9],
          manifest := createStreamManifest "t" "c" 0,
          isRecording := true, manifestWrites := 0 } :=
  claim2_amended_failed_segment_dropped _ _ 8 [9] rfl rfl

/-! ## Consumer: StreamPlayer -/

/-- In-memory state of an initialized `StreamPlayer` (after `initialize` has
loaded the manifest and `sourceopen` has created the SourceBuffer).
`sinkLog` is a ghost trace of the payloads handed to
`sourceBuffer.appendBuffer`, in order; `mediaSourceOpen` models
`mediaSource.readyState === "open"` (cleared by `endOfStream()`);
`polling` models whether the `setInterval` timer is installed;
`endOfStreamCount` and `endedCallbackCount` count the `endOfStream()` calls
and `onStreamEndedCallback` invocations issued by the polling loop. -/
structure PlayerState where
  manifest : StreamManifest
  lastProcessedChunkIndex : Int
  pendingChunks : List Payload
  isBufferUpdating : Bool
  sinkLog : List Payload
  mediaSourceOpen : Bool
  polling : Bool
  endOfStreamCount : Nat
  endedCallbackCount : Nat
  deriving Repr, DecidableEq

/-- Inner loop of `processNextPendingChunk` once the `isBufferUpdating` guard
has been passed: shift payloads off the pending queue, dropping each one
whose `appendBuffer` call throws (the catch clears the updating flag and
recurses: `// Try next chunk on error`), until one append is accepted — the
sink takes one outstanding append — or the queue is exhausted.  `appendOk`
tells, per payload, whether `appendBuffer` accepts it or throws.  Returns the
remaining queue and the payload handed to the sink, if any. -/
def processPending (appendOk : Payload → Bool) :
    List Payload → List Payload × Option Payload
  | [] => ([], none)
  | p :: rest =>
    if appendOk p then (rest, some p) else processPending appendOk rest

/-- `StreamPlayer.processNextPendingChunk`: no-op while the buffer is
updating; otherwise shift and append via `processPending`, setting
`isBufferUpdating` when an append is accepted. -/
def processNextPendingChunk (appendOk : Payload → Bool) (st : PlayerState) :
    PlayerState :=
  if st.isBufferUpdating then st
  else
    match processPending appendOk st.pendingChunks with
    | (rest, some p) =>
      { st with
        pendingChunks := rest
        isBufferUpdating := true
        sinkLog := st.sinkLog ++ [p] }
    | (rest, none) => { st with pendingChunks := rest }

/-- The SourceBuffer `updateend` handler: clear `isBufferUpdating` and run
`processNextPendingChunk` again. -/
def onUpdateEnd (appendOk : Payload → Bool) (st : PlayerState) : PlayerState :=
  processNextPendingChunk appendOk { st with isBufferUpdating := false }

/-- `StreamPlayer.loadChunk`: skip when the chunk is already processed;
fetch its bytes (`fetch ch = none` models a fetch/HTTP failure, whose catch
just logs and calls `handleError`, leaving the state unchanged); on success
push the bytes onto `pendingChunks`, run `processNextPendingChunk`, then
raise `lastProcessedChunkIndex`. -/
def loadChunk (appendOk : Payload → Bool) (fetch : StreamChunk → Option Payload)
    (st : PlayerState) (ch : StreamChunk) : PlayerState :=
  if ch.index ≤ st.lastProcessedChunkIndex then st
  else
    match fetch ch with
    | none => st
    | some data =>
      let st1 := processNextPendingChunk appendOk
        { st with pendingChunks := st.pendingChunks ++ [data] }
      { st1 with lastProcessedChunkIndex := max st1.lastProcessedChunkIndex ch.index }

/-- Sequential `for`-loop over chunks, awaiting each `loadChunk`. -/
def loadChunks (appendOk : Payload → Bool) (fetch : StreamChunk → Option Payload)
    (st : PlayerState) (cs : List StreamChunk) : PlayerState :=
  cs.foldl (loadChunk appendOk fetch) st

/-- `StreamPlayer.loadNewChunks`: filter the manifest for chunks with index
above `lastProcessedChunkIndex` and load each in order. -/
def loadNewChunks (appendOk : Payload → Bool) (fetch : StreamChunk → Option Payload)
    (st : PlayerState) : PlayerState :=
  loadChunks appendOk fetch st
    (st.manifest.chunks.filter (fun c => st.lastProcessedChunkIndex < c.index))

/-- The termination block of the polling callback once `status === "ended"`
is observed: `stopPolling()`, invoke `onStreamEndedCallback`, then call
`mediaSource.endOfStream()` if the media source is still open (after which
its readyState is no longer `"open"`). -/
def signalEnded (st : PlayerState) : PlayerState :=
  if st.mediaSourceOpen then
    { st with
      polling := false
      endedCallbackCount := st.endedCallbackCount + 1
      mediaSourceOpen := false
      endOfStreamCount := st.endOfStreamCount + 1 }
  else
    { st with
      polling := false
      endedCallbackCount := st.endedCallbackCount + 1 }

/-- Tail of the polling callback: run the ended branch when the freshly
fetched manifest is ended, else leave the state as is. -/
def pollTickEnded (fetched : StreamManifest) (st1 : PlayerState) : PlayerState :=
  if fetched.status = StreamStatus.ended then signalEnded st1 else st1

/-- One firing of the `startPolling` interval callback, given the manifest
`fetched` by `loadStreamManifest` (a failed manifest fetch is caught and
makes the whole tick a no-op, so failed ticks are simply omitted from runs):
when the fetched manifest has more chunks, adopt it and load the new chunks;
then handle the ended status.  A tick only happens while the timer is
installed (`polling`). -/
def pollTick (appendOk : Payload → Bool) (fetch : StreamChunk → Option Payload)
    (st : PlayerState) (fetched : StreamManifest) : PlayerState :=
  if st.polling then
    pollTickEnded fetched
      (if st.manifest.chunkCount < fetched.chunkCount
        then loadNewChunks appendOk fetch { st with manifest := fetched }
        else st)
  else st

/-- A run of successive poll ticks, one per fetched manifest. -/
def pollRun (appendOk : Payload → Bool) (fetch : StreamChunk → Option Payload)
    (st : PlayerState) (ms : List StreamManifest) : PlayerState :=
  ms.foldl (pollTick appendOk fetch) st

/-- The full sequence of payloads destined for the decoder sink: those
already handed to `appendBuffer` followed by the FIFO pending queue. -/
def sinkSeq (st : PlayerState) : List Payload :=
  st.sinkLog ++ st.pendingChunks

/-! ## Consumer frame lemmas -/

theorem processNextPendingChunk_frame (a : Payload → Bool) (st : PlayerState) :
    (processNextPendingChunk a st).manifest = st.manifest ∧
    (processNextPendingChunk a st).polling = st.polling ∧
    (processNextPendingChunk a st).mediaSourceOpen = st.mediaSourceOpen ∧
    (processNextPendingChunk a st).endOfStreamCount = st.endOfStreamCount ∧
    (processNextPendingChunk a st).endedCallbackCount = st.endedCallbackCount ∧
    (processNextPendingChunk a st).lastProcessedChunkIndex = st.lastProcessedChunkIndex := by
  unfold processNextPendingChunk
  split
  · exact ⟨rfl, rfl, rfl, rfl, rfl, rfl⟩
  · rcases h : processPending a st.pendingChunks with ⟨rest, op⟩
    cases op <;> simp [h]

theorem loadChunk_frame (a : Payload → Bool) (f : StreamChunk → Option Payload)
    (st : PlayerState) (ch : StreamChunk) :
    (loadChunk a f st ch).manifest = st.manifest ∧
    (loadChunk a f st ch).polling = st.polling ∧
    (loadChunk a f st ch).mediaSourceOpen = st.mediaSourceOpen ∧
    (loadChunk a f st ch).endOfStreamCount = st.endOfStreamCount ∧
    (loadChunk a f st ch).endedCallbackCount = st.endedCallbackCount := by
  unfold loadChunk
  split
  · exact ⟨rfl, rfl, rfl, rfl, rfl⟩
  · cases hf : f ch with
    | none => simp [hf]
    | some data =>
      have hfr := processNextPendingChunk_frame a
        { st with pendingChunks := st.pendingChunks ++ [data] }
      simp only [hf]
      exact ⟨hfr.1, hfr.2.1, hfr.2.2.1, hfr.2.2.2.1, hfr.2.2.2.2.1⟩

theorem loadChunks_frame (a : Payload → Bool) (f : StreamChunk → Option Payload)
    (cs : List StreamChunk) :
    ∀ st : PlayerState,
      (loadChunks a f st cs).manifest = st.manifest ∧
      (loadChunks a f st cs).polling = st.polling ∧
      (loadChunks a f st cs).mediaSourceOpen = st.mediaSourceOpen ∧
      (loadChunks a f st cs).endOfStreamCount = st.endOfStreamCount ∧
      (loadChunks a f st cs).endedCallbackCount = st.endedCallbackCount := by
  induction cs with
  | nil => intro st; exact ⟨rfl, rfl, rfl, rfl, rfl⟩
  | cons c cs ih =>
    intro st
    have h1 := loadChunk_frame a f st c
    have h2 := ih (loadChunk a f st c)
    simp only [loadChunks, List.foldl_cons] at h2 ⊢
    exact ⟨h2.1.trans h1.1, h2.2.1.trans h1.2.1, h2.2.2.1.trans h1.2.2.1,
      h2.2.2.2.1.trans h1.2.2.2.1, h2.2.2.2.2.trans h1.2.2.2.2⟩

theorem loadNewChunks_frame (a : Payload → Bool) (f : StreamChunk → Option Payload)
    (st : PlayerState) :
    (loadNewChunks a f st).manifest = st.manifest ∧
    (loadNewChunks a f st).polling = st.polling ∧
    (loadNewChunks a f st).mediaSourceOpen = st.mediaSourceOpen ∧
    (loadNewChunks a f st).endOfStreamCount = st.endOfStreamCount ∧
    (loadNewChunks a f st).endedCallbackCount = st.endedCallbackCount :=
  loadChunks_frame a f _ st

/-! ## Poll tick lemmas -/

theorem pollTick_not_polling (a : Payload → Bool) (f : StreamChunk → Option Payload)
    (st : PlayerState) (m : StreamManifest) (h : st.polling = false) :
    pollTick a f st m = st := by
  simp [pollTick, h]

theorem pollRun_not_polling (a : Payload → Bool) (f : StreamChunk → Option Payload)
    (ms : List StreamManifest) :
    ∀ st : PlayerState, st.polling = false → pollRun a f st ms = st := by
  induction ms with
  | nil => intro st _; rfl
  | cons m ms ih =>
    intro st h
    simp only [pollRun, List.foldl_cons]
    rw [pollTick_not_polling a f st m h]
    exact ih st h

theorem pollTick_live_eq (a : Payload → Bool) (f : StreamChunk → Option Payload)
    (st : PlayerState) (fetched : StreamManifest)
    (hpoll : st.polling = true) (hst : fetched.status = StreamStatus.live) :
    pollTick a f st fetched
      = if st.manifest.chunkCount < fetched.chunkCount
        then loadNewChunks a f { st with manifest := fetched }
        else st := by
  unfold pollTick pollTickEnded
  simp [hpoll, hst]

theorem pollTick_live_frame (a : Payload → Bool) (f : StreamChunk → Option Payload)
    (st : PlayerState) (m : StreamManifest) (hm : m.status = StreamStatus.live) :
    (pollTick a f st m).polling = st.polling ∧
    (pollTick a f st m).mediaSourceOpen = st.mediaSourceOpen ∧
    (pollTick a f st m).endOfStreamCount = st.endOfStreamCount ∧
    (pollTick a f st m).endedCallbackCount = st.endedCallbackCount := by
  rcases Bool.eq_false_or_eq_true st.polling with hpoll | hpoll
  · rw [pollTick_live_eq a f st m hpoll hm]
    split
    · have hfr := loadNewChunks_frame a f { st with manifest := m }
      exact ⟨hfr.2.1, hfr.2.2.1, hfr.2.2.2.1, hfr.2.2.2.2⟩
    · exact ⟨rfl, rfl, rfl, rfl⟩
  · rw [pollTick_not_polling a f st m hpoll]
    exact ⟨rfl, rfl, rfl, rfl⟩

theorem signalEnded_signals (st1 : PlayerState) (hopen : st1.mediaSourceOpen = true) :
    (signalEnded st1).polling = false ∧
    (signalEnded st1).endOfStreamCount = st1.endOfStreamCount + 1 ∧
    (signalEnded st1).endedCallbackCount = st1.endedCallbackCount + 1 := by
  simp [signalEnded, hopen]

theorem pollTick_ended_eq (a : Payload → Bool) (f : StreamChunk → Option Payload)
    (st : PlayerState) (fetched : StreamManifest)
    (hpoll : st.polling = true) (hst : fetched.status = StreamStatus.ended) :
    pollTick a f st fetched
      = signalEnded
          (if st.manifest.chunkCount < fetched.chunkCount
            then loadNewChunks a f { st with manifest := fetched }
            else st) := by
  unfold pollTick pollTickEnded
  simp [hpoll, hst]

theorem pollTick_ended_signals (a : Payload → Bool) (f : StreamChunk → Option Payload)
    (st : PlayerState) (m : StreamManifest)
    (hpoll : st.polling = true) (hm : m.status = StreamStatus.ended)
    (hopen : st.mediaSourceOpen = true) :
    (pollTick a f st m).polling = false ∧
    (pollTick a f st m).endOfStreamCount = st.endOfStreamCount + 1 ∧
    (pollTick a f st m).endedCallbackCount = st.endedCallbackCount + 1 := by
  rw [pollTick_ended_eq a f st m hpoll hm]
  by_cases hc : st.manifest.chunkCount < m.chunkCount
  · rw [if_pos hc]
    have hfr := loadNewChunks_frame a f { st with manifest := m }
    have hsg := signalEnded_signals _ (hfr.2.2.1.trans hopen)
    exact ⟨hsg.1, hsg.2.1.trans (by rw [hfr.2.2.2.1]), hsg.2.2.trans (by rw [hfr.2.2.2.2])⟩
  · rw [if_neg hc]
    exact signalEnded_signals st hopen

/-! ## Claim C5: end-of-stream signalled exactly once -/

theorem pollRun_live_all (a : Payload → Bool) (f : StreamChunk → Option Payload)
    (ms1 : List StreamManifest) :
    ∀ st : PlayerState, (∀ m ∈ ms1, m.status = StreamStatus.live) →
      (pollRun a f st ms1).polling = st.polling ∧
      (pollRun a f st ms1).mediaSourceOpen = st.mediaSourceOpen ∧
      (pollRun a f st ms1).endOfStreamCount = st.endOfStreamCount ∧
      (pollRun a f st ms1).endedCallbackCount = st.endedCallbackCount := by
  induction ms1 with
  | nil => intro st _; exact ⟨rfl, rfl, rfl, rfl⟩
  | cons m ms ih =>
    intro st hlive
    have hfr := pollTick_live_frame a f st m (hlive m (by simp))
    have h2 := ih (pollTick a f st m) (fun m' hm' => hlive m' (by simp [hm']))
    simp only [pollRun, List.foldl_cons] at h2 ⊢
    exact ⟨h2.1.trans hfr.1, h2.2.1.trans hfr.2.1, h2.2.2.1.trans hfr.2.2.1,
      h2.2.2.2.trans hfr.2.2.2⟩

theorem pollRun_ended_tail (a : Payload → Bool) (f : StreamChunk → Option Payload)
    (ms2 : List StreamManifest)
    (hended : ∀ m ∈ ms2, m.status = StreamStatus.ended) (hne : ms2 ≠ []) :
    ∀ st : PlayerState, st.polling = true → st.mediaSourceOpen = true →
      (pollRun a f st ms2).endOfStreamCount = st.endOfStreamCount + 1 ∧
      (pollRun a f st ms2).endedCallbackCount = st.endedCallbackCount + 1 ∧
      (pollRun a f st ms2).polling = false := by
  intro st hpoll hopen
  cases ms2 with
  | nil => exact absurd rfl hne
  | cons m rest =>
    have hm := hended m (by simp)
    have hsig := pollTick_ended_signals a f st m hpoll hm hopen
    have hrun : pollRun a f st (m :: rest) = pollRun a f (pollTick a f st m) rest := by
      simp [pollRun]
    rw [hrun, pollRun_not_polling a f rest _ hsig.1]
    exact ⟨hsig.2.1, hsig.2.2, hsig.1⟩

/-- Claim C5: once a poll tick observes an ended manifest, the consumer
issues the end-of-stream signal and invokes the stream-ended callback
exactly once over the whole run, no matter how many poll ticks follow, and
it stops its polling timer at that observation.  `ms1` are the fetches made
while the manifest was still live; `ms2` the (nonempty) fetches from the
point the manifest became ended onward. -/
theorem claim5_end_signal_exactly_once (a : Payload → Bool)
    (f : StreamChunk → Option Payload) (st : PlayerState)
    (ms1 ms2 : List StreamManifest)
    (hpoll : st.polling = true) (hopen : st.mediaSourceOpen = true)
    (heos : st.endOfStreamCount = 0) (hcb : st.endedCallbackCount = 0)
    (hlive : ∀ m ∈ ms1, m.status = StreamStatus.live)
    (hended : ∀ m ∈ ms2, m.status = StreamStatus.ended)
    (hne : ms2 ≠ []) :
    (pollRun a f st (ms1 ++ ms2)).endOfStreamCount = 1 ∧
    (pollRun a f st (ms1 ++ ms2)).endedCallbackCount = 1 ∧
    (pollRun a f st (ms1 ++ ms2)).polling = false := by
  have hsplit : pollRun a f st (ms1 ++ ms2) = pollRun a f (pollRun a f st ms1) ms2 := by
    simp [pollRun, List.foldl_append]
  have hL := pollRun_live_all a f ms1 st hlive
  have hT := pollRun_ended_tail a f ms2 hended hne (pollRun a f st ms1)
    (hL.1.trans hpoll) (hL.2.1.trans hopen)
  rw [hsplit]
  refine ⟨?_, ?_, hT.2.2⟩
  · rw [hT.1, hL.2.2.1, heos]
  · rw [hT.2.1, hL.2.2.2, hcb]

/-- Concrete live manifest for the C5 witness. -/
def mLive5 : StreamManifest := createStreamManifest "t" "c" 0

/-- The same manifest after `endStream`. -/
def mEnded5 : StreamManifest := endStream mLive5 9

/-- Freshly initialized player on `mLive5`. -/
def pW5 : PlayerState :=
  { manifest := mLive5
    lastProcessedChunkIndex := -1
    pendingChunks := []
    isBufferUpdating := false
    sinkLog := []
    mediaSourceOpen := true
    polling := true
    endOfStreamCount := 0
    endedCallbackCount := 0 }

/-- Witness for C5: one live tick, then two ended ticks. -/
theorem claim5_end_signal_exactly_once_witness :
    (pollRun (fun _ => true) (fun _ => none) pW5
        ([mLive5] ++ [mEnded5, mEnded5])).endOfStreamCount = 1 ∧
    (pollRun (fun _ => true) (fun _ => none) pW5
        ([mLive5] ++ [mEnded5, mEnded5])).endedCallbackCount = 1 ∧
    (pollRun (fun _ => true) (fun _ => none) pW5
        ([mLive5] ++ [mEnded5, mEnded5])).polling = false :=
  claim5_end_signal_exactly_once (fun _ => true) (fun _ => none) pW5
    [mLive5] [mEnded5, mEnded5] rfl rfl rfl rfl
    (by decide) (by decide) (List.cons_ne_nil _ _)

/-! ## Claim C6: polls with no new segments are no-ops -/

theorem loadNewChunks_no_new (a : Payload → Bool) (f : StreamChunk → Option Payload)
    (st : PlayerState)
    (h : ∀ c ∈ st.manifest.chunks, c.index ≤ st.lastProcessedChunkIndex) :
    loadNewChunks a f st = st := by
  unfold loadNewChunks
  have hfilter :
      st.manifest.chunks.filter (fun c => st.lastProcessedChunkIndex < c.index) = [] := by
    rw [List.filter_eq_nil_iff]
    intro c hc
    have := h c hc
    simp only [decide_eq_true_eq]
    omega
  rw [hfilter]
  rfl

theorem pollTickEnded_frame (fetched : StreamManifest) (s1 : PlayerState) :
    (pollTickEnded fetched s1).sinkLog = s1.sinkLog ∧
    (pollTickEnded fetched s1).pendingChunks = s1.pendingChunks ∧
    (pollTickEnded fetched s1).lastProcessedChunkIndex = s1.lastProcessedChunkIndex := by
  unfold pollTickEnded signalEnded
  split
  · split
    · exact ⟨rfl, rfl, rfl⟩
    · exact ⟨rfl, rfl, rfl⟩
  · exact ⟨rfl, rfl, rfl⟩

theorem pollTick_eq_of_polling (a : Payload → Bool) (f : StreamChunk → Option Payload)
    (st : PlayerState) (fetched : StreamManifest) (hpoll : st.polling = true) :
    pollTick a f st fetched
      = pollTickEnded fetched
          (if st.manifest.chunkCount < fetched.chunkCount
            then loadNewChunks a f { st with manifest := fetched }
            else st) := by
  unfold pollTick
  simp [hpoll]

theorem signalEnded_polling (s1 : PlayerState) : (signalEnded s1).polling = false := by
  unfold signalEnded
  split
  · rfl
  · rfl

theorem pollTick_self (a : Payload → Bool) (f : StreamChunk → Option Payload)
    (r : PlayerState) (fetched : StreamManifest)
    (hman : r.manifest = fetched) (hst : fetched.status = StreamStatus.live) :
    pollTick a f r fetched = r := by
  rcases Bool.eq_false_or_eq_true r.polling with hpoll | hpoll
  · rw [pollTick_live_eq a f r fetched hpoll hst, hman]
    simp
  · exact pollTick_not_polling a f r fetched hpoll

/-- Claim C6: a poll tick whose fetched manifest has no segment with index
above `lastProcessedChunkIndex` performs no appends (sink log and pending
queue untouched) and leaves the last applied index unchanged; and polling
the same manifest twice is idempotent — the second tick changes nothing. -/
theorem claim6_no_new_segments_noop :
    (∀ (a : Payload → Bool) (f : StreamChunk → Option Payload) (st : PlayerState)
        (fetched : StreamManifest),
      (∀ c ∈ fetched.chunks, c.index ≤ st.lastProcessedChunkIndex) →
        (pollTick a f st fetched).sinkLog = st.sinkLog ∧
        (pollTick a f st fetched).pendingChunks = st.pendingChunks ∧
        (pollTick a f st fetched).lastProcessedChunkIndex = st.lastProcessedChunkIndex) ∧
    (∀ (a : Payload → Bool) (f : StreamChunk → Option Payload) (st : PlayerState)
        (fetched : StreamManifest),
      pollTick a f (pollTick a f st fetched) fetched = pollTick a f st fetched) := by
  constructor
  · intro a f st fetched h
    rcases Bool.eq_false_or_eq_true st.polling with hpoll | hpoll
    · rw [pollTick_eq_of_polling a f st fetched hpoll]
      set st1 := (if st.manifest.chunkCount < fetched.chunkCount
        then loadNewChunks a f { st with manifest := fetched }
        else st) with hst1
      have h1 : st1.sinkLog = st.sinkLog ∧ st1.pendingChunks = st.pendingChunks ∧
          st1.lastProcessedChunkIndex = st.lastProcessedChunkIndex := by
        rw [hst1]
        by_cases hc : st.manifest.chunkCount < fetched.chunkCount
        · rw [if_pos hc,
            loadNewChunks_no_new a f { st with manifest := fetched } (fun c hc' => h c hc')]
          exact ⟨rfl, rfl, rfl⟩
        · rw [if_neg hc]
          exact ⟨rfl, rfl, rfl⟩
      have hE := pollTickEnded_frame fetched st1
      exact ⟨hE.1.trans h1.1, hE.2.1.trans h1.2.1, hE.2.2.trans h1.2.2⟩
    · rw [pollTick_not_polling a f st fetched hpoll]
      exact ⟨rfl, rfl, rfl⟩
  · intro a f st fetched
    rcases Bool.eq_false_or_eq_true st.polling with hpoll | hpoll
    · cases hst : fetched.status with
      | live =>
        rw [pollTick_live_eq a f st fetched hpoll hst]
        by_cases hc : st.manifest.chunkCount < fetched.chunkCount
        · rw [if_pos hc]
          have hfr := loadNewChunks_frame a f { st with manifest := fetched }
          exact pollTick_self a f _ fetched hfr.1 hst
        · rw [if_neg hc]
          rw [pollTick_live_eq a f st fetched hpoll hst, if_neg hc]
      | ended =>
        have hstop : (pollTick a f st fetched).polling = false := by
          rw [pollTick_ended_eq a f st fetched hpoll hst]
          exact signalEnded_polling _
        exact pollTick_not_polling a f _ fetched hstop
    · rw [pollTick_not_polling a f st fetched hpoll,
        pollTick_not_polling a f st fetched hpoll]

/-- Manifest with one chunk of index 0, for the C6 witness. -/
def mW6 : StreamManifest :=
  updateStreamManifest (createStreamManifest "t" "c" 0) "u" 0 1

/-- Player that has already applied the chunk of index 0. -/
def pW6 : PlayerState :=
  { manifest := mW6
    lastProcessedChunkIndex := 0
    pendingChunks := []
    isBufferUpdating := false
    sinkLog := []
    mediaSourceOpen := true
    polling := true
    endOfStreamCount := 0
    endedCallbackCount := 0 }

/-- Witness for C6: re-polling `mW6` after its only chunk was applied. -/
theorem claim6_no_new_segments_noop_witness :
    (pollTick (fun _ => true) (fun _ => none) pW6 mW6).sinkLog = pW6.sinkLog ∧
    (pollTick (fun _ => true) (fun _ => none) pW6 mW6).pendingChunks = pW6.pendingChunks ∧
    (pollTick (fun _ => true) (fun _ => none) pW6 mW6).lastProcessedChunkIndex
      = pW6.lastProcessedChunkIndex :=
  claim6_no_new_segments_noop.1 (fun _ => true) (fun _ => none) pW6 mW6 (by decide)

/-! ## Claim C3: ordering under fetch failures -/

theorem loadChunk_fetch_fail (a : Payload → Bool) (f : StreamChunk → Option Payload)
    (st : PlayerState) (ch : StreamChunk) (hf : f ch = none) :
    loadChunk a f st ch = st := by
  unfold loadChunk
  split
  · rfl
  · simp [hf]

theorem processPending_true (l : List Payload) :
    processPending (fun _ => true) l = (l.tail, l.head?) := by
  cases l <;> simp [processPending]

theorem processNextPendingChunk_true_sinkSeq (st : PlayerState) :
    sinkSeq (processNextPendingChunk (fun _ => true) st) = sinkSeq st := by
  unfold processNextPendingChunk
  split
  · rfl
  · rw [processPending_true]
    cases hq : st.pendingChunks with
    | nil => simp [sinkSeq, hq]
    | cons p rest => simp [sinkSeq, hq]

theorem loadChunk_true_some (f : StreamChunk → Option Payload) (st : PlayerState)
    (ch : StreamChunk) (d : Payload)
    (hgt : st.lastProcessedChunkIndex < ch.index) (hf : f ch = some d) :
    sinkSeq (loadChunk (fun _ => true) f st ch) = sinkSeq st ++ [d] ∧
    (loadChunk (fun _ => true) f st ch).lastProcessedChunkIndex
      = max st.lastProcessedChunkIndex ch.index := by
  unfold loadChunk
  rw [if_neg (by omega)]
  simp only [hf]
  constructor
  · have h1 := processNextPendingChunk_true_sinkSeq
      { st with pendingChunks := st.pendingChunks ++ [d] }
    calc sinkSeq _
        = sinkSeq (processNextPendingChunk (fun _ => true)
            { st with pendingChunks := st.pendingChunks ++ [d] }) := rfl
      _ = sinkSeq { st with pendingChunks := st.pendingChunks ++ [d] } := h1
      _ = sinkSeq st ++ [d] := by simp [sinkSeq]
  · have h2 := (processNextPendingChunk_frame (fun _ => true)
      { st with pendingChunks := st.pendingChunks ++ [d] }).2.2.2.2.2
    show max _ ch.index = max st.lastProcessedChunkIndex ch.index
    rw [h2]

/-- Amended claim C3: with fetches resolved in manifest order (the loops
await each fetch before starting the next), segments whose fetch succeeds
are handed to the decoder sink in ascending index order — segment n before
segment n+1 — but a segment whose fetch fails is skipped permanently rather
than blocking later segments: the sink receives exactly the successfully
fetched payloads, in order, with the failed ones missing. -/
theorem claim3_amended_inorder_skip_failed (f : StreamChunk → Option Payload)
    (cs : List StreamChunk) :
    ∀ st : PlayerState,
      List.Pairwise (fun x y => x.index < y.index) cs →
      (∀ c ∈ cs, st.lastProcessedChunkIndex < c.index) →
      sinkSeq (loadChunks (fun _ => true) f st cs) = sinkSeq st ++ cs.filterMap f := by
  induction cs with
  | nil => intro st _ _; simp [loadChunks]
  | cons c cs ih =>
    intro st hpw hgt
    have hc : st.lastProcessedChunkIndex < c.index := hgt c (by simp)
    have hpw' := List.pairwise_cons.mp hpw
    simp only [loadChunks, List.foldl_cons]
    cases hf : f c with
    | none =>
      rw [loadChunk_fetch_fail (fun _ => true) f st c hf]
      have hrec := ih st hpw'.2 (fun c' hc' => hgt c' (List.mem_cons_of_mem c hc'))
      simp only [loadChunks] at hrec
      rw [hrec]
      simp [List.filterMap_cons, hf]
    | some d =>
      have hstep := loadChunk_true_some f st c d hc hf
      have hbound : ∀ c' ∈ cs,
          (loadChunk (fun _ => true) f st c).lastProcessedChunkIndex < c'.index := by
        intro c' hc'
        rw [hstep.2]
        exact max_lt (hgt c' (List.mem_cons_of_mem c hc')) (hpw'.1 c' hc')
      have hrec := ih (loadChunk (fun _ => true) f st c) hpw'.2 hbound
      simp only [loadChunks] at hrec
      rw [hrec, hstep.1]
      simp [List.filterMap_cons, hf]

/-- Manifest with segments 0 and 1, for the C3 counterexample. -/
def cex3Manifest : StreamManifest :=
  updateStreamManifest
    (updateStreamManifest (createStreamManifest "t" "c" 0) "u0" 0 1) "u1" 1 2

/-- Freshly initialized player on `cex3Manifest`. -/
def cex3Player : PlayerState :=
  { manifest := cex3Manifest
    lastProcessedChunkIndex := -1
    pendingChunks := []
    isBufferUpdating := false
    sinkLog := []
    mediaSourceOpen := true
    polling := true
    endOfStreamCount := 0
    endedCallbackCount := 0 }

/-- Fetch oracle for the C3 counterexample: the fetch of segment 0 fails,
the fetch of segment 1 succeeds with payload 11. -/
def cex3Fetch : StreamChunk → Option Payload :=
  fun ch => if ch.index = 0 then none else some 11

/-- Counterexample to claim C3.  With the fetch of segment 0 failing and the
fetch of segment 1 succeeding, `loadNewChunks` appends segment 1's payload
to the decoder sink (`sinkLog = [11]`) even though segment 0's bytes were
never appended, and advances `lastProcessedChunkIndex` to 1 so that segment
0 is permanently skipped: a failed segment does not block later segments. -/
theorem claim3_counterexample :
    (loadNewChunks (fun _ => true) cex3Fetch cex3Player).sinkLog = [11] ∧
    (loadNewChunks (fun _ => true) cex3Fetch cex3Player).pendingChunks = [] ∧
    (loadNewChunks (fun _ => true) cex3Fetch cex3Player).lastProcessedChunkIndex = 1 := by
  decide

/-- Witness for the amended C3 on the counterexample scenario: the sink
receives exactly the successfully fetched payloads, in order. -/
theorem claim3_amended_inorder_skip_failed_witness :
    sinkSeq (loadChunks (fun _ => true) cex3Fetch cex3Player cex3Manifest.chunks)
      = sinkSeq cex3Player ++ cex3Manifest.chunks.filterMap cex3Fetch :=
  claim3_amended_inorder_skip_failed cex3Fetch cex3Manifest.chunks cex3Player
    (by decide) (by decide)

/-! ## Claim C4: failed appends drop the payload -/

/-- Player with one pending payload, for the C4 counterexample. -/
def cex4Player : PlayerState :=
  { manifest := createStreamManifest "t" "c" 0
    lastProcessedChunkIndex := -1
    pendingChunks := [7]
    isBufferUpdating := false
    sinkLog := []
    mediaSourceOpen := true
    polling := true
    endOfStreamCount := 0
    endedCallbackCount := 0 }

/-- Counterexample to claim C4.  The pending payload 7 is shifted off the
queue, its `appendBuffer` call throws (e.g. a capacity error), and the catch
neither evicts nor re-queues it: afterwards the pending queue is empty and
the sink log unchanged — the payload was dropped, never appended at all,
refuting "the feeder retries the same payload after eviction so that the
payload is appended exactly once afterward". -/
theorem claim4_counterexample :
    (processNextPendingChunk (fun _ => false) cex4Player).pendingChunks = [] ∧
    (processNextPendingChunk (fun _ => false) cex4Player).sinkLog = [] := by
  decide

/-- Amended claim C4: when appending a pending payload fails (capacity or
state error), the feeder drops that payload — it has already been removed
from the pending queue and is not re-queued, and no eviction is performed —
and immediately tries the next pending payload within the same call. -/
theorem claim4_amended_drop_and_try_next (appendOk : Payload → Bool)
    (st : PlayerState) (p : Payload) (rest : List Payload)
    (hupd : st.isBufferUpdating = false) (hq : st.pendingChunks = p :: rest)
    (hfail : appendOk p = false) :
    processNextPendingChunk appendOk st
      = processNextPendingChunk appendOk { st with pendingChunks := rest } := by
  unfold processNextPendingChunk
  rw [hq]
  simp only [hupd, Bool.false_eq_true, if_false, processPending, hfail]

/-- Witness for the amended C4 at the counterexample state. -/
theorem claim4_amended_drop_and_try_next_witness :
    processNextPendingChunk (fun _ => false) cex4Player
      = processNextPendingChunk (fun _ => false) { cex4Player with pendingChunks := [] } :=
  claim4_amended_drop_and_try_next (fun _ => false) cex4Player 7 [] rfl rfl rfl

/-! ## Claim C9: stopRecording is idempotent -/

theorem stopRecording_not_recording (st : RecorderState) (outs : List UploadOutcome)
    (now : Int) (endOk : Bool) (h : st.isRecording = false) :
    stopRecording st outs now endOk = st := by
  simp [stopRecording, h]

/-- Claim C9: once `stopRecording` has completed successfully (the final
manifest write with status ended succeeded, clearing `isRecording`), a
second call returns through the `!isRecording` guard: it performs no further
manifest writes (the ghost `manifestWrites` counter is part of the state
equality) and leaves the recorder state untouched. -/
theorem claim9_stopRecording_idempotent (st : RecorderState)
    (outs outs2 : List UploadOutcome) (now now2 : Int) (endOk2 : Bool)
    (hrec : st.isRecording = true) :
    (stopRecording st outs now true).isRecording = false ∧
    stopRecording (stopRecording st outs now true) outs2 now2 endOk2
      = stopRecording st outs now true := by
  have h1 : (stopRecording st outs now true).isRecording = false := by
    simp [stopRecording, hrec]
  exact ⟨h1, stopRecording_not_recording _ outs2 now2 endOk2 h1⟩

/-- Witness for C9 at a freshly initialized recorder. -/
theorem claim9_stopRecording_idempotent_witness :
    (stopRecording (initRecorder "t" "c" 0) [] 5 true).isRecording = false ∧
    stopRecording (stopRecording (initRecorder "t" "c" 0) [] 5 true) [] 6 true
      = stopRecording (initRecorder "t" "c" 0) [] 5 true :=
  claim9_stopRecording_idempotent (initRecorder "t" "c" 0) [] [] 5 6 true rfl
